import Mathlib

/-!
Verification of the track17 client core: the two hash primitives and the
Last-Event-ID generator from `src/last_event_id.rs`, the tracking resolution
engine from `src/client.rs`, and the credential-refresh protocol from
`src/credential_cache.rs`, shallowly embedded from the Rust sources.
-/

namespace Track17

/-! ### 32-bit machine arithmetic

An `i32` value is carried as its 32-bit pattern: a natural number below
`2 ^ 32`.  `toSigned` recovers the signed value a pattern denotes and
`toBits` maps an integer back to its two's-complement pattern.  Every
wrapping `i32` operation of the source is a helper below, acting on
patterns.
-/

/-- `2 ^ 32`, the number of 32-bit patterns. -/
abbrev U32 : Nat := 4294967296

/-- `2 ^ 31`, the magnitude of `i32::MIN`. -/
abbrev HALF32 : Nat := 2147483648

/-- The signed (`i32`) value denoted by a 32-bit pattern. -/
def toSigned (n : Nat) : Int :=
  if n < HALF32 then (n : Int) else (n : Int) - 4294967296

/-- The 32-bit pattern of an integer (reduction modulo `2 ^ 32`). -/
def toBits (x : Int) : Nat := (x % 4294967296).toNat

/-- Two's-complement wraparound of an integer to an `i32` value. -/
def wrap32 (x : Int) : Int := toSigned (toBits x)

/-- `i32::wrapping_mul`, on 32-bit patterns. -/
def mul32 (a b : Nat) : Nat := a * b % U32

/-- `i32::wrapping_add`, on 32-bit patterns. -/
def add32 (a b : Nat) : Nat := (a + b) % U32

/-- `i32` bitwise xor: identical on the signed and unsigned views of a pattern. -/
def xor32 (a b : Nat) : Nat := a ^^^ b

/-- `i32` left shift (`<<`): bits shifted out are discarded. -/
def shl32 (a k : Nat) : Nat := a * 2 ^ k % U32

/-- `i32` arithmetic (sign-extending) right shift (`>>`), on 32-bit patterns. -/
def asr32 (a k : Nat) : Nat :=
  if a < HALF32 then a / 2 ^ k else a / 2 ^ k + (U32 - U32 / 2 ^ k)

theorem toBits_lt (x : Int) : toBits x < U32 := by
  simp only [toBits, U32]
  omega

theorem toBits_toSigned {n : Nat} (h : n < U32) : toBits (toSigned n) = n := by
  simp only [toBits, toSigned, U32, HALF32] at *
  split <;> omega

theorem xor32_lt {a b : Nat} (ha : a < U32) (hb : b < U32) : xor32 a b < U32 := by
  have h32 : U32 = 2 ^ 32 := by norm_num
  simpa [xor32, h32] using Nat.xor_lt_two_pow (h32 ▸ ha) (h32 ▸ hb)

theorem mul32_lt (a b : Nat) : mul32 a b < U32 := Nat.mod_lt _ (by norm_num)

theorem add32_lt (a b : Nat) : add32 a b < U32 := Nat.mod_lt _ (by norm_num)

theorem shl32_lt (a k : Nat) : shl32 a k < U32 := Nat.mod_lt _ (by norm_num)

/-- Code points are 32-bit patterns (in fact they are below `0x110000`). -/
theorem char_toNat_lt_u32 (c : Char) : c.toNat < U32 := by
  have h : c.toNat < 2 ^ 32 := c.val.toBitVec.isLt
  simp only [U32]
  omega

/-! ### Hash primitives (`src/last_event_id.rs`)

`djb2` and `murmur_hash` are embedded from the source with the `i32`
accumulator carried as its 32-bit pattern; strings are their lists of
code points (`chars()` in Rust iterates Unicode scalar values, exactly
Lean's `Char`).
-/

/-- `djb2` from `src/last_event_id.rs:41`: if the string is empty return 0,
else seed `a = 5381`, iterate `s.chars().rev()` performing
`a = a.wrapping_mul(33) ^ (ch as i32)`, and return `a as u32`
(on patterns, the final cast is the identity). -/
def djb2 (s : List Char) : Nat :=
  if s.isEmpty then 0
  else s.reverse.foldl (fun a ch => xor32 (mul32 a 33) ch.toNat) 5381

/-- `murmur_hash` from `src/last_event_id.rs:64` (the spec's `siteHash`):
if the string is empty return 0, else seed
`l = (0x4e67c6a7_u32 as i32) ^ (t << 16)`, iterate `s.chars().rev()`
performing `l ^= (l << 5).wrapping_add(o).wrapping_add(l >> 2)` with `o`
the code point and `>>` the `i32` arithmetic shift, and return
`(0x7fffffff & l).unsigned_abs()` (the masked value is nonnegative, so
on patterns this is the 31-bit mask). -/
def murmur_hash (s : List Char) (t : Nat) : Nat :=
  if s.isEmpty then 0
  else
    let l := s.reverse.foldl
      (fun l ch => xor32 l (add32 (add32 (shl32 l 5) ch.toNat) (asr32 l 2)))
      (xor32 0x4e67c6a7 (shl32 t 16))
    0x7fffffff &&& l

/-! ### Claim-side hash definitions

These restate claims C1 and C2 in the signed model: the accumulator is an
`Int` (ranging over `i32` values), every step is worded as in the claim,
and only at the very end is the result reinterpreted as unsigned.
-/

/-- One step of claim C1's fold: `acc = (acc * 33) XOR codepoint` in 32-bit
signed wraparound arithmetic (xor acts on the two's-complement patterns). -/
def djb2StepSigned (acc : Int) (c : Nat) : Int :=
  toSigned (toBits (acc * 33) ^^^ c)

/-- Claim C1's `djb2`: 0 on empty input, otherwise fold `djb2StepSigned`
from 5381 over the code points in reverse order, the final accumulator
reinterpreted as an unsigned 32-bit integer. -/
def djb2Signed (s : List Char) : Nat :=
  if s.isEmpty then 0
  else toBits (s.reverse.foldl (fun acc ch => djb2StepSigned acc ch.toNat) 5381)

theorem toSigned_emod {n : Nat} (h : n < U32) :
    toSigned n % 4294967296 = (n : Int) := by
  simp only [toSigned, U32, HALF32] at *
  split <;> omega

theorem toBits_mul33 {n : Nat} (h : n < U32) :
    toBits (toSigned n * 33) = mul32 n 33 := by
  simp only [toBits, toSigned, mul32, U32, HALF32] at *
  split <;> omega

theorem djb2_fold_eq (l : List Char) (n : Nat) (h : n < U32) :
    toBits (l.foldl (fun acc ch => djb2StepSigned acc ch.toNat) (toSigned n)) =
      l.foldl (fun a ch => xor32 (mul32 a 33) ch.toNat) n := by
  induction l generalizing n with
  | nil => exact toBits_toSigned h
  | cons ch l ih =>
    have hstep : djb2StepSigned (toSigned n) ch.toNat =
        toSigned (xor32 (mul32 n 33) ch.toNat) := by
      simp only [djb2StepSigned, toBits_mul33 h, xor32]

    have hlt : xor32 (mul32 n 33) ch.toNat < U32 :=
      xor32_lt (mul32_lt n 33) (char_toNat_lt_u32 ch)
    simp only [List.foldl_cons, hstep]
    exact ih _ hlt

/-- C1: for every Unicode string `s`, `djb2 s` is 0 when `s` is empty and is
otherwise the fold of `acc = (acc * 33) XOR codepoint` over the code points
of `s` in reverse order, starting from 5381, computed in 32-bit signed
wraparound arithmetic with the final accumulator reinterpreted as an
unsigned 32-bit integer. -/
theorem djb2_matches_signed_spec (s : List Char) : djb2 s = djb2Signed s := by
  unfold djb2 djb2Signed
  cases hs : s.isEmpty
  · simp only [Bool.false_eq_true, if_false]
    have h5381 : (5381 : Int) = toSigned 5381 := by norm_num [toSigned, HALF32]
    rw [h5381, djb2_fold_eq s.reverse 5381 (by norm_num)]
  · simp

/-- One step of claim C2's fold: `acc ^= (acc << 5) + codepoint + (acc >> 2)`
with the shifts and additions in 32-bit signed wraparound arithmetic, the
right shift arithmetic (floor division by 4), and xor acting on the
two's-complement patterns. -/
def siteHashStepSigned (acc : Int) (c : Nat) : Int :=
  toSigned (toBits acc ^^^
    toBits (wrap32 (wrap32 (wrap32 (acc * 32) + c) + Int.fdiv acc 4)))

/-- Claim C2's `siteHash`: 0 on empty input, otherwise the fold of
`siteHashStepSigned` over the code points in reverse order, the accumulator
starting as `0x4e67c6a7 XOR (t << 16)`, returning the absolute value of the
low 31 bits of the final accumulator reinterpreted as unsigned. -/
def siteHashSigned (s : List Char) (t : Int) : Nat :=
  if s.isEmpty then 0
  else
    let acc := s.reverse.foldl (fun acc ch => siteHashStepSigned acc ch.toNat)
      (toSigned (0x4e67c6a7 ^^^ toBits (wrap32 (t * 65536))))
    (toSigned (0x7fffffff &&& toBits acc)).natAbs

theorem asr32_lt {a : Nat} (h : a < U32) : asr32 a 2 < U32 := by
  simp only [asr32, U32, HALF32] at *
  norm_num
  split <;> omega

theorem toBits_wrap32 (x : Int) : toBits (wrap32 x) = toBits x :=
  toBits_toSigned (toBits_lt x)

theorem toBits_mul_shl5 {n : Nat} (h : n < U32) :
    toBits (toSigned n * 32) = shl32 n 5 := by
  simp only [toBits, toSigned, shl32, U32, HALF32] at *
  norm_num
  split <;> omega

theorem toBits_mul_shl16 {n : Nat} (h : n < U32) :
    toBits (toSigned n * 65536) = shl32 n 16 := by
  simp only [toBits, toSigned, shl32, U32, HALF32] at *
  norm_num
  split <;> omega

theorem toBits_add_nat {a : Nat} (c : Nat) (h : a < U32) :
    toBits (toSigned a + (c : Int)) = add32 a c := by
  simp only [toBits, toSigned, add32, U32, HALF32] at *
  split <;> omega

theorem toBits_add_signed {a b : Nat} (ha : a < U32) (hb : b < U32) :
    toBits (toSigned a + toSigned b) = add32 a b := by
  simp only [toBits, toSigned, add32, U32, HALF32] at *
  split <;> split <;> omega

theorem fdiv_toSigned {n : Nat} (h : n < U32) :
    Int.fdiv (toSigned n) 4 = toSigned (asr32 n 2) := by
  rw [Int.fdiv_eq_ediv _ (by norm_num)]
  simp only [toSigned, asr32, U32, HALF32] at *
  norm_num
  split <;> split <;> omega

theorem siteHash_step_eq {n : Nat} (c : Nat) (hn : n < U32) (hc : c < U32) :
    siteHashStepSigned (toSigned n) c =
      toSigned (xor32 n (add32 (add32 (shl32 n 5) c) (asr32 n 2))) := by
  have h1 : wrap32 (toSigned n * 32) = toSigned (shl32 n 5) := by
    simp only [wrap32, toBits_mul_shl5 hn]
  have h2 : wrap32 (toSigned (shl32 n 5) + (c : Int)) =
      toSigned (add32 (shl32 n 5) c) := by
    simp only [wrap32, toBits_add_nat c (shl32_lt n 5)]
  have h3 : Int.fdiv (toSigned n) 4 = toSigned (asr32 n 2) := fdiv_toSigned hn
  have h4 : wrap32 (toSigned (add32 (shl32 n 5) c) + toSigned (asr32 n 2)) =
      toSigned (add32 (add32 (shl32 n 5) c) (asr32 n 2)) := by
    simp only [wrap32, toBits_add_signed (add32_lt (shl32 n 5) c) (asr32_lt hn)]
  simp only [siteHashStepSigned, h1, h2, h3, h4, toBits_toSigned hn,
    toBits_toSigned (add32_lt (add32 (shl32 n 5) c) (asr32 n 2)), xor32]

theorem siteHash_fold_eq (l : List Char) (n : Nat) (h : n < U32) :
    toBits (l.foldl (fun acc ch => siteHashStepSigned acc ch.toNat) (toSigned n)) =
      l.foldl
        (fun l ch => xor32 l (add32 (add32 (shl32 l 5) ch.toNat) (asr32 l 2))) n := by
  induction l generalizing n with
  | nil => exact toBits_toSigned h
  | cons ch l ih =>
    have hlt : xor32 n (add32 (add32 (shl32 n 5) ch.toNat) (asr32 n 2)) < U32 :=
      xor32_lt h (add32_lt _ _)
    simp only [List.foldl_cons, siteHash_step_eq ch.toNat h (char_toNat_lt_u32 ch)]
    exact ih _ hlt

/-- C2: for every Unicode string `s` and 32-bit seed `t`, `murmur_hash s t`
(the spec's `siteHash`) is 0 when `s` is empty and otherwise starts its
32-bit signed accumulator as `0x4e67c6a7 XOR (t << 16)`, folds
`acc ^= (acc << 5) + codepoint + (acc >> 2)` (arithmetic right shift,
wraparound addition) over the code points of `s` in reverse order, and
returns the absolute value of the low 31 bits reinterpreted as unsigned. -/
theorem murmur_hash_matches_signed_spec (s : List Char) (t : Nat) (ht : t < U32) :
    murmur_hash s t = siteHashSigned s (toSigned t) := by
  unfold murmur_hash siteHashSigned
  cases hs : s.isEmpty
  · simp only [Bool.false_eq_true, if_false]
    have hinit : toSigned (0x4e67c6a7 ^^^ toBits (wrap32 (toSigned t * 65536))) =
        toSigned (xor32 0x4e67c6a7 (shl32 t 16)) := by
      simp only [toBits_wrap32, toBits_mul_shl16 ht, xor32]
    have hinitlt : xor32 0x4e67c6a7 (shl32 t 16) < U32 :=
      xor32_lt (by norm_num) (shl32_lt t 16)
    rw [hinit, siteHash_fold_eq s.reverse _ hinitlt]
    set l := s.reverse.foldl
      (fun l ch => xor32 l (add32 (add32 (shl32 l 5) ch.toNat) (asr32 l 2)))
      (xor32 0x4e67c6a7 (shl32 t 16)) with hl
    have hmask : 0x7fffffff &&& l < HALF32 := by
      have := Nat.and_le_left (n := 0x7fffffff) (m := l)
      simp only [HALF32]
      omega
    simp only [toSigned, if_pos hmask, Int.natAbs_ofNat]
  · simp


/-- Witness for C2 at a concrete seed. -/
theorem murmur_hash_matches_signed_spec_witness :
    (5 : Nat) < U32 ∧
      murmur_hash "hello".toList 5 = siteHashSigned "hello".toList (toSigned 5) :=
  ⟨by norm_num, murmur_hash_matches_signed_spec "hello".toList 5 (by norm_num)⟩

/-! ### Last-Event-ID generation (`src/last_event_id.rs`)

Strings are lists of code points; the decimal and hexadecimal renderings of
`format!` are `Nat.toDigits` (most significant digit first, lowercase
`a`-`f`, `"0"` for zero, no leading zeros otherwise), as in Rust.
-/

/-- Rust `str::len` for a list of code points: the UTF-8 byte length. -/
def strLen (s : List Char) : Nat := (s.map (fun c => c.utf8Size)).sum

/-- `pad8_hex` from the source: `format!("{:08x}", value)`, lowercase hex
zero-padded on the left to 8 characters. -/
def pad8_hex (value : Nat) : List Char :=
  List.replicate (8 - (Nat.toDigits 16 value).length) '0' ++ Nat.toDigits 16 value

/-- `hex_encode_chars` from the source: each character's code point rendered
with `format!("{:x}", code)` (the source's `i == 0` branch is identical to
the general branch), concatenated with no separators. -/
def hex_encode_chars (s : List Char) : List Char :=
  s.foldl (fun result ch => result ++ Nat.toDigits 16 ch.toNat) []

/-- `format!("{}", i)` for an `i32` value: decimal, `-`-prefixed if negative. -/
def intToDecChars (i : Int) : List Char :=
  if i < 0 then '-' :: Nat.toDigits 10 i.natAbs else Nat.toDigits 10 i.toNat

/-- `LastEventIdConfig` from the source. -/
structure LastEventIdConfig where
  yq_bid : List Char
  configs_md5 : List Char
  tz_offset : Int
  canvas_hash : Nat

/-- `generate_last_event_id` from `src/last_event_id.rs:140`, with the one
effect — reading the clock — made explicit: `now_millis` is the value of
`SystemTime::now()` in Unix epoch milliseconds. -/
def generate_last_event_id (request_body_json : List Char)
    (config : LastEventIdConfig) (now_millis : Nat) : List Char :=
  let body_hash := murmur_hash request_body_json (strLen request_body_json)
  let c5 := pad8_hex body_hash
  let s := config.canvas_hash
  let r : Nat := 0
  let timestamp_hex := Nat.toDigits 16 now_millis
  let t_value := if config.yq_bid.isEmpty then Nat.toDigits 10 s else config.yq_bid
  let a := t_value ++ ":false:".toList ++ Nat.toDigits 10 s ++ ":0:0/".toList
    ++ timestamp_hex ++ "/11/true/".toList ++ intToDecChars config.tz_offset
    ++ "/".toList ++ Nat.toDigits 10 s ++ "/".toList ++ config.configs_md5
    ++ "/".toList ++ Nat.toDigits 10 r
  let metadata_hash := murmur_hash a 0
  let c4 := pad8_hex metadata_hash
  let c3 := "4".toList
  let reversed := a.reverse
  let c0 := hex_encode_chars reversed
  c0 ++ c3 ++ c4 ++ c5

/-- The metadata string exactly as claim C3 words it:
`"{device_id}:false:{canvasHash}:0:0/{epochMillisHex}/11/true/{tzOffset}/{canvasHash}/{assetVersion}/0"`. -/
def claimMeta (device_id : List Char) (canvasHash : Nat) (epochMillis : Nat)
    (tzOffset : Int) (assetVersion : List Char) : List Char :=
  device_id ++ ":false:".toList ++ Nat.toDigits 10 canvasHash ++ ":0:0/".toList
    ++ Nat.toDigits 16 epochMillis ++ "/11/true/".toList ++ intToDecChars tzOffset
    ++ "/".toList ++ Nat.toDigits 10 canvasHash ++ "/".toList ++ assetVersion
    ++ "/0".toList

/-- C3: for every configuration with a device id and every request body,
the generated Last-Event-ID is exactly
`encodedMeta ++ "4" ++ metaHash ++ bodyHash`, where `meta` is the claimed
format string, `metaHash = siteHash(meta, 0)` and
`bodyHash = siteHash(body, length(body))` are rendered as 8 zero-padded
lowercase hex digits, and `encodedMeta` hex-encodes every code point of the
reversal of `meta`.  `length(body)` is the Rust `str::len` of the body, its
UTF-8 byte length (equal to the code-point count for ASCII bodies). -/
theorem generate_last_event_id_structure (body : List Char)
    (cfg : LastEventIdConfig) (now : Nat) (hbid : cfg.yq_bid ≠ []) :
    generate_last_event_id body cfg now =
      hex_encode_chars
          (claimMeta cfg.yq_bid cfg.canvas_hash now cfg.tz_offset cfg.configs_md5).reverse
        ++ "4".toList
        ++ pad8_hex
          (murmur_hash (claimMeta cfg.yq_bid cfg.canvas_hash now cfg.tz_offset cfg.configs_md5) 0)
        ++ pad8_hex (murmur_hash body (strLen body)) := by
  have hempty : cfg.yq_bid.isEmpty = false := by
    cases h : cfg.yq_bid with
    | nil => exact absurd h hbid
    | cons a l => rfl
  have hzero : Nat.toDigits 10 0 = ['0'] := rfl
  simp only [generate_last_event_id, claimMeta, hempty, Bool.false_eq_true,
    if_false, hzero]
  simp [List.append_assoc]

/-- Witness for C3 at a concrete configuration, body and timestamp. -/
theorem generate_last_event_id_structure_witness :
    ("G".toList ≠ ([] : List Char)) ∧
      generate_last_event_id "x".toList
          { yq_bid := "G".toList, configs_md5 := "1".toList,
            tz_offset := 300, canvas_hash := 7 } 0 =
        hex_encode_chars
            (claimMeta "G".toList 7 0 300 "1".toList).reverse
          ++ "4".toList
          ++ pad8_hex (murmur_hash (claimMeta "G".toList 7 0 300 "1".toList) 0)
          ++ pad8_hex (murmur_hash "x".toList (strLen "x".toList)) :=
  ⟨by decide, generate_last_event_id_structure "x".toList
    { yq_bid := "G".toList, configs_md5 := "1".toList,
      tz_offset := 300, canvas_hash := 7 } 0 (by decide)⟩


/-! ### Tracking data model (`src/types.rs`)

Only the fields the resolution engine reads or writes are modelled; the
raw-JSON pass-through fields of the Rust structs (`param`, `params`,
`params_v2`, `key`, ...) never influence the engine and are omitted.
-/

/-- Carrier codes from `src/types.rs`. -/
def carriers.AUTO : Nat := 0

def carriers.FEDEX : Nat := 100003

def carriers.UPS : Nat := 100001

def carriers.USPS : Nat := 100002

def carriers.DHL : Nat := 100005

/-- A tracking event (content opaque to the engine). -/
structure TrackingEvent where
  time : Option String := none
  description : Option String := none
  stage : Option String := none
deriving DecidableEq

structure Provider where
  events : List TrackingEvent
deriving DecidableEq

structure TrackingDetails where
  providers : Option (List Provider)
deriving DecidableEq

structure ShipmentDetails where
  tracking : Option TrackingDetails
  latest_event : Option TrackingEvent
deriving DecidableEq

/-- `extra` entry of a code-400 response: suggested carrier codes. -/
structure ShipmentExtra where
  multi : List Nat
deriving DecidableEq

structure Shipment where
  code : Int
  number : String
  carrier : Nat
  carrier_final : Option Nat := none
  extra : Option (List ShipmentExtra) := none
  shipment : Option ShipmentDetails := none
  pre_status : Option Int := none
  state : Option String := none
  show_more : Bool := false
deriving DecidableEq

structure Meta where
  code : Int
  message : String
deriving DecidableEq

structure TrackingResponse where
  guid : String
  shipments : List Shipment
  meta : Meta
deriving DecidableEq

structure TrackingItem where
  num : String
  fc : Nat
  sc : Nat
deriving DecidableEq

/-! ### Engine constants (`src/client.rs`) -/

def INVALID_SIGN_CODE : Int := -11

def INVALID_SESSION_CODE : Int := -14

def PENDING_SHIPMENT_CODE : Int := 100

def NOT_FOUND_SHIPMENT_CODE : Int := 400

def MAX_PENDING_RETRIES : Nat := 50

/-! ### The result map

`HashMap<String, Shipment>` is modelled as an association list whose
`insert` replaces any previous binding; lookup order never matters because
keys remain unique. -/

/-- The result map: tracking number to resolved shipment. -/
abbrev ShipMap := List (String × Shipment)

/-- Drop every binding of key `k`. -/
def ShipMap.eraseKey (k : String) : ShipMap → ShipMap
  | [] => []
  | p :: rest =>
      if p.1 == k then ShipMap.eraseKey k rest else p :: ShipMap.eraseKey k rest

/-- `HashMap::get`-style lookup. -/
def ShipMap.lookupKey (m : ShipMap) (k : String) : Option Shipment :=
  (m.find? fun p => p.1 == k).map (fun p => p.2)

/-- `HashMap::contains_key`. -/
def ShipMap.hasKey (m : ShipMap) (k : String) : Bool :=
  (m.find? fun p => p.1 == k).isSome

/-- `HashMap::insert` (replaces any previous binding of `k`). -/
def ShipMap.insertKV (m : ShipMap) (k : String) (v : Shipment) : ShipMap :=
  (k, v) :: ShipMap.eraseKey k m

/-- `HashMap::remove`: the removed binding, if any, and the remaining map. -/
def ShipMap.removeKV (m : ShipMap) (k : String) : Option Shipment × ShipMap :=
  (m.lookupKey k, ShipMap.eraseKey k m)

/-! ### The resolution engine (`src/client.rs`)

The loop of `track_multiple` is embedded as a recursion over the list of
responses the API would return, one per submitted round (the response
oracle).  Network transport, logging and the inter-round sleep are
external; the sleep is recorded in a `delays` counter and each credential
invalidate-and-reacquire in `cred_refreshes`. -/

/-- `shipment_needs_retry` from `src/client.rs:397`. -/
def shipment_needs_retry (s : Shipment) : Bool :=
  if s.code == PENDING_SHIPMENT_CODE then true
  else if s.code == 200 then
    match s.shipment with
    | none => true
    | some details =>
        let has_events := details.latest_event.isSome ||
          (((details.tracking.bind fun t => t.providers).map
            (fun provs => provs.any fun prov => !prov.events.isEmpty)).getD false)
        !has_events
  else false

/-- `get_suggested_carrier` from `src/client.rs:422`: prefer FedEx, then
UPS, then USPS, else the first suggested carrier of the entry. -/
def get_suggested_carrier (s : Shipment) : Option Nat :=
  s.extra.bind fun extras =>
    extras.findSome? fun e =>
      if carriers.FEDEX ∈ e.multi then some carriers.FEDEX
      else if carriers.UPS ∈ e.multi then some carriers.UPS
      else if carriers.USPS ∈ e.multi then some carriers.USPS
      else e.multi.head?

/-- The per-call engine state of `track_multiple` (its local variables). -/
structure EngineState where
  items : List TrackingItem
  final_shipments : ShipMap
  session_guid : String
  pending_retries : Nat
  cred_refreshes : Nat
  delays : Nat
deriving DecidableEq

/-- `items.iter_mut().find(|i| i.num == num)` followed by `item.fc = c`:
update the carrier of the first item with the given number. -/
def updateCarrierFirst : List TrackingItem → String → Nat → List TrackingItem
  | [], _, _ => []
  | i :: rest, num, c =>
      if i.num == num then { i with fc := c } :: rest
      else i :: updateCarrierFirst rest num c

/-- The placeholder shipment built when the retry budget is exhausted
(`src/client.rs:577`): pending code, the item's number and carrier, no
shipment detail. -/
def placeholderShipment (item : TrackingItem) : Shipment :=
  { code := PENDING_SHIPMENT_CODE, number := item.num, carrier := item.fc }

/-- Body of `for shipment in response.shipments` (`src/client.rs:530`). -/
def processShipment (st : EngineState) (s : Shipment) : EngineState :=
  match (if s.code == NOT_FOUND_SHIPMENT_CODE then get_suggested_carrier s else none) with
  | some suggested =>
      { st with items := updateCarrierFirst st.items s.number suggested }
  | none =>
      if !(shipment_needs_retry s) then
        { st with final_shipments := st.final_shipments.insertKV s.number s }
      else st

/-- The still-unresolved items (`src/client.rs:465` and `:555`). -/
def pendingItems (st : EngineState) : List TrackingItem :=
  st.items.filter fun item => !(st.final_shipments.hasKey item.num)

/-- `src/client.rs:572`: insert a placeholder for every item without a
resolved entry. -/
def fillPlaceholders (items : List TrackingItem) (m : ShipMap) : ShipMap :=
  items.foldl
    (fun m item =>
      if m.hasKey item.num then m
      else m.insertKV item.num (placeholderShipment item))
    m

/-- Outcome of one iteration of the `loop`: either the loop `break`s with a
final state, or it continues into the next round. -/
inductive RoundOutcome where
  | done (st : EngineState)
  | next (st : EngineState)
deriving DecidableEq

/-- One iteration of the `loop` of `track_multiple` after the response for
the round arrived (`src/client.rs:510`-`:608`): handle credential expiry,
store the session guid, process each shipment, then decide between
placeholder-fill-and-terminate, retry with delay, or loop on. -/
def processRound (st : EngineState) (resp : TrackingResponse) : RoundOutcome :=
  if resp.meta.code == INVALID_SIGN_CODE || resp.meta.code == INVALID_SESSION_CODE then
    RoundOutcome.next { st with cred_refreshes := st.cred_refreshes + 1 }
  else
    let st1 := if resp.guid == "" then st else { st with session_guid := resp.guid }
    let st2 := resp.shipments.foldl processShipment st1
    if (pendingItems st2).length > 0 then
      if st2.pending_retries ≥ MAX_PENDING_RETRIES then
        RoundOutcome.done
          { st2 with final_shipments := fillPlaceholders st2.items st2.final_shipments }
      else
        RoundOutcome.next
          { st2 with pending_retries := st2.pending_retries + 1, delays := st2.delays + 1 }
    else
      RoundOutcome.next st2

/-- The `loop` of `track_multiple`, driven by the response oracle: each
iteration first `break`s if nothing is pending, otherwise consumes the next
scripted response.  `none` means the script ran out of responses while
items were still pending (the model has no further rounds to feed). -/
def runRounds (responses : List TrackingResponse) (st : EngineState) :
    Option EngineState :=
  if (pendingItems st).isEmpty then some st
  else
    match responses with
    | [] => none
    | resp :: rest =>
        match processRound st resp with
        | RoundOutcome.done stF => some stF
        | RoundOutcome.next st1 => runRounds rest st1

/-- Result of a `track_multiple` call. -/
inductive TrackOutcome where
  | panicked
  | outOfResponses
  | ok (resp : TrackingResponse)
deriving DecidableEq

/-- `tracking_numbers.iter().filter_map(|num| final_shipments.remove(num))`
(`src/client.rs:612`): look every requested number up in the result map,
removing it as it is taken. -/
def assembleOutput : List String → ShipMap → List Shipment
  | [], _ => []
  | num :: rest, m =>
      match ShipMap.removeKV m num with
      | (some s, m1) => s :: assembleOutput rest m1
      | (none, m1) => assembleOutput rest m1

/-- `track_multiple` from `src/client.rs:437`.  `hasCredentials` is whether
`self.credentials` is already populated; when it is not, the source
evaluates `&tracking_numbers[0]`, which panics on an empty slice.
Credential extraction itself is external and modelled as succeeding; the
scripted `responses` stand for the API. -/
def track_multiple (hasCredentials : Bool) (tracking_numbers : List String)
    (carrier_code : Nat) (responses : List TrackingResponse) : TrackOutcome :=
  if !hasCredentials && tracking_numbers.isEmpty then TrackOutcome.panicked
  else
    let st0 : EngineState :=
      { items := tracking_numbers.map fun num => { num, fc := carrier_code, sc := 0 }
        final_shipments := []
        session_guid := ""
        pending_retries := 0
        cred_refreshes := 0
        delays := 0 }
    match runRounds responses st0 with
    | none => TrackOutcome.outOfResponses
    | some st =>
        TrackOutcome.ok
          { guid := st.session_guid
            shipments := assembleOutput tracking_numbers st.final_shipments
            meta := { code := 200, message := "Ok" } }


/-! ### Result-map lemmas -/

/-- Every value in the map is stored under its own tracking number. -/
def entriesOK (m : ShipMap) : Prop := ∀ p ∈ m, (p.2).number = p.1

theorem lookupKey_nil (k : String) : ShipMap.lookupKey [] k = none := rfl

theorem ShipMap.hasKey_iff_lookupKey {m : ShipMap} {k : String} :
    m.hasKey k = true ↔ (m.lookupKey k).isSome = true := by
  simp [ShipMap.hasKey, ShipMap.lookupKey]

theorem lookupKey_insert_self (m : ShipMap) (k : String) (v : Shipment) :
    (m.insertKV k v).lookupKey k = some v := by
  simp [ShipMap.insertKV, ShipMap.lookupKey, List.find?]

theorem lookupKey_cons (p : String × Shipment) (m : ShipMap) (k : String) :
    ShipMap.lookupKey (p :: m) k =
      if p.1 == k then some p.2 else ShipMap.lookupKey m k := by
  simp only [ShipMap.lookupKey, List.find?]
  cases hb : (p.1 == k) <;> simp [hb]

theorem eraseKey_cons (p : String × Shipment) (m : ShipMap) (k1 : String) :
    ShipMap.eraseKey k1 (p :: m) =
      if p.1 == k1 then ShipMap.eraseKey k1 m
      else p :: ShipMap.eraseKey k1 m := rfl

theorem lookupKey_eraseKey_ne {k k1 : String} (m : ShipMap) (h : k ≠ k1) :
    (ShipMap.eraseKey k1 m).lookupKey k = m.lookupKey k := by
  induction m with
  | nil => rfl
  | cons p rest ih =>
    rw [eraseKey_cons]
    by_cases h1 : (p.1 == k1) = true
    · have h2 : (p.1 == k) = false := by
        have : p.1 = k1 := by simpa using h1
        simp [this]
        exact fun hq => h hq.symm
      rw [if_pos h1, ih, lookupKey_cons, h2]
      simp
    · rw [if_neg h1, lookupKey_cons, lookupKey_cons, ih]

theorem lookupKey_insert_ne {k k1 : String} (m : ShipMap) (v : Shipment)
    (h : k ≠ k1) : (m.insertKV k1 v).lookupKey k = m.lookupKey k := by
  have hk : (k1 == k) = false := by
    simp only [beq_eq_false_iff_ne]
    exact fun hq => h hq.symm
  show ShipMap.lookupKey ((k1, v) :: ShipMap.eraseKey k1 m) k = _
  rw [lookupKey_cons]
  simp only [hk, Bool.false_eq_true, if_false]
  exact lookupKey_eraseKey_ne m h

theorem hasKey_insert_of_hasKey {m : ShipMap} {k : String} (k1 : String)
    (v : Shipment) (h : m.hasKey k = true) :
    (m.insertKV k1 v).hasKey k = true := by
  by_cases hk : k = k1
  · subst hk
    simp [ShipMap.hasKey_iff_lookupKey, lookupKey_insert_self]
  · rw [ShipMap.hasKey_iff_lookupKey] at *
    rw [lookupKey_insert_ne m v hk]
    exact h

theorem hasKey_insert_ne {m : ShipMap} {k k1 : String} (v : Shipment)
    (h : k ≠ k1) : (m.insertKV k1 v).hasKey k = m.hasKey k := by
  rw [Bool.eq_iff_iff, ShipMap.hasKey_iff_lookupKey, ShipMap.hasKey_iff_lookupKey,
    lookupKey_insert_ne m v h]

theorem mem_of_lookupKey_some {m : ShipMap} {k : String} {v : Shipment}
    (h : m.lookupKey k = some v) : ∃ p ∈ m, p.1 = k ∧ p.2 = v := by
  induction m with
  | nil => exact absurd h (by simp [ShipMap.lookupKey])
  | cons p rest ih =>
    rw [lookupKey_cons] at h
    by_cases hb : (p.1 == k) = true
    · rw [if_pos hb] at h
      exact ⟨p, List.mem_cons_self p rest, by simpa using hb, Option.some.inj h⟩
    · rw [if_neg hb] at h
      obtain ⟨q, hq, hk1, hv⟩ := ih h
      exact ⟨q, List.mem_cons_of_mem p hq, hk1, hv⟩

theorem lookupKey_number {m : ShipMap} {k : String} {v : Shipment}
    (hok : entriesOK m) (h : m.lookupKey k = some v) : v.number = k := by
  obtain ⟨p, hp, hk, hv⟩ := mem_of_lookupKey_some h
  subst hk hv
  exact hok p hp

theorem mem_eraseKey_subset {k1 : String} {m : ShipMap} {p : String × Shipment}
    (h : p ∈ ShipMap.eraseKey k1 m) : p ∈ m := by
  induction m with
  | nil => exact absurd h (List.not_mem_nil p)
  | cons q rest ih =>
    by_cases h1 : q.1 = k1
    · simp only [ShipMap.eraseKey, h1, beq_self_eq_true, if_true] at h
      exact List.mem_cons_of_mem q (ih h)
    · have : (q.1 == k1) = false := by simpa using h1
      simp only [ShipMap.eraseKey, this, Bool.false_eq_true, if_false,
        List.mem_cons] at h
      rcases h with h | h
      · exact h ▸ List.mem_cons_self q rest
      · exact List.mem_cons_of_mem q (ih h)

theorem entriesOK_eraseKey {m : ShipMap} (k1 : String) (hok : entriesOK m) :
    entriesOK (ShipMap.eraseKey k1 m) :=
  fun p hp => hok p (mem_eraseKey_subset hp)

theorem entriesOK_insert {m : ShipMap} {k : String} {v : Shipment}
    (hok : entriesOK m) (hv : v.number = k) : entriesOK (m.insertKV k v) := by
  intro p hp
  simp only [ShipMap.insertKV, List.mem_cons] at hp
  rcases hp with hp | hp
  · subst hp; exact hv
  · exact entriesOK_eraseKey k hok p hp

theorem hasKey_eraseKey_self (m : ShipMap) (k : String) :
    (ShipMap.eraseKey k m).hasKey k = false := by
  induction m with
  | nil => rfl
  | cons p rest ih =>
    by_cases h1 : p.1 = k
    · simpa [ShipMap.eraseKey, h1] using ih
    · have hne : (p.1 == k) = false := by simpa using h1
      simp [ShipMap.eraseKey, ShipMap.hasKey, List.find?, hne] at *
      exact ih

theorem hasKey_eraseKey_ne {k k1 : String} (m : ShipMap) (h : k ≠ k1) :
    (ShipMap.eraseKey k1 m).hasKey k = m.hasKey k := by
  rw [Bool.eq_iff_iff, ShipMap.hasKey_iff_lookupKey, ShipMap.hasKey_iff_lookupKey,
    lookupKey_eraseKey_ne m h]


/-! ### Claim C4: credential expiry recovery -/

/-- C4: when a round's response carries meta code -11 (invalid signature) or
-14 (invalid session), the engine invalidates and re-acquires credentials
(one more `cred_refreshes`), the next round resubmits exactly the same
pending set, and neither the retry counter nor any other engine state
changes. -/
theorem credential_expiry_uncounted_retry (st : EngineState)
    (resp : TrackingResponse) (rest : List TrackingResponse)
    (hcode : resp.meta.code = INVALID_SIGN_CODE ∨
      resp.meta.code = INVALID_SESSION_CODE)
    (hpending : (pendingItems st).isEmpty = false) :
    processRound st resp =
      RoundOutcome.next { st with cred_refreshes := st.cred_refreshes + 1 } ∧
    runRounds (resp :: rest) st =
      runRounds rest { st with cred_refreshes := st.cred_refreshes + 1 } ∧
    pendingItems { st with cred_refreshes := st.cred_refreshes + 1 } =
      pendingItems st ∧
    ({ st with cred_refreshes := st.cred_refreshes + 1 } : EngineState).pending_retries =
      st.pending_retries := by
  have hb : (resp.meta.code == INVALID_SIGN_CODE ||
      resp.meta.code == INVALID_SESSION_CODE) = true := by
    rcases hcode with h | h <;> simp [h]
  refine ⟨?_, ?_, rfl, rfl⟩
  · simp only [processRound, hb, if_true]
  · rw [runRounds]
    simp only [hpending, Bool.false_eq_true, if_false, processRound, hb, if_true]

/-- Witness for C4: a concrete -11 round is replayed against the same
pending set without touching the retry counter. -/
theorem credential_expiry_uncounted_retry_witness :
    processRound
        { items := [{ num := "A", fc := 0, sc := 0 }], final_shipments := [],
          session_guid := "", pending_retries := 3, cred_refreshes := 0,
          delays := 0 }
        { guid := "", shipments := [], meta := { code := -11, message := "" } } =
      RoundOutcome.next
        { items := [{ num := "A", fc := 0, sc := 0 }], final_shipments := [],
          session_guid := "", pending_retries := 3, cred_refreshes := 1,
          delays := 0 } :=
  (credential_expiry_uncounted_retry
    { items := [{ num := "A", fc := 0, sc := 0 }], final_shipments := [],
      session_guid := "", pending_retries := 3, cred_refreshes := 0, delays := 0 }
    { guid := "", shipments := [], meta := { code := -11, message := "" } }
    [] (Or.inl rfl) (by decide)).1

/-! ### Claim C6: carrier suggestions -/

/-- Claim C6's carrier choice: FedEx if suggested, else UPS, else USPS,
else the first suggested carrier. -/
def suggestedPick (e : ShipmentExtra) : Nat :=
  if carriers.FEDEX ∈ e.multi then carriers.FEDEX
  else if carriers.UPS ∈ e.multi then carriers.UPS
  else if carriers.USPS ∈ e.multi then carriers.USPS
  else e.multi.headD 0

theorem updateCarrierFirst_append (pre post : List TrackingItem)
    (it : TrackingItem) (num : String) (c : Nat)
    (hpre : ∀ j ∈ pre, j.num ≠ num) (hit : it.num = num) :
    updateCarrierFirst (pre ++ it :: post) num c =
      pre ++ { it with fc := c } :: post := by
  induction pre with
  | nil => simp [updateCarrierFirst, hit]
  | cons j rest ih =>
    have hj : (j.num == num) = false := by
      simpa using hpre j (List.mem_cons_self j rest)
    simp only [List.cons_append, updateCarrierFirst, hj, Bool.false_eq_true,
      if_false, List.cons.injEq, true_and]
    exact ih fun x hx => hpre x (List.mem_cons_of_mem j hx)

/-- C6: for a shipment with code 400 and a carrier-suggestion entry with a
non-empty `multi` list, the engine picks FedEx if suggested, else UPS, else
USPS, else the first suggestion; processing that shipment rewrites the
carrier of (only) the first item with that tracking number, keeps every
other item and the whole result map untouched, so the item remains
pending. -/
theorem carrier_suggestion_applied (st : EngineState) (sh : Shipment)
    (e : ShipmentExtra) (pre post : List TrackingItem) (it : TrackingItem)
    (h400 : sh.code = 400) (hextra : sh.extra = some [e]) (hne : e.multi ≠ [])
    (hsplit : st.items = pre ++ it :: post)
    (hpre : ∀ j ∈ pre, j.num ≠ sh.number) (hit : it.num = sh.number) :
    get_suggested_carrier sh = some (suggestedPick e) ∧
    processShipment st sh =
      { st with items := pre ++ { it with fc := suggestedPick e } :: post } ∧
    (processShipment st sh).final_shipments = st.final_shipments := by
  have hsugg : get_suggested_carrier sh = some (suggestedPick e) := by
    by_cases h1 : carriers.FEDEX ∈ e.multi
    · simp [get_suggested_carrier, hextra, suggestedPick, List.findSome?, h1]
    · by_cases h2 : carriers.UPS ∈ e.multi
      · simp [get_suggested_carrier, hextra, suggestedPick, List.findSome?, h1, h2]
      · by_cases h3 : carriers.USPS ∈ e.multi
        · simp [get_suggested_carrier, hextra, suggestedPick, List.findSome?,
            h1, h2, h3]
        · cases hm : e.multi with
          | nil => exact absurd hm hne
          | cons a l =>
            rw [hm] at h1 h2 h3
            simp [get_suggested_carrier, hextra, suggestedPick, List.findSome?,
              h1, h2, h3, hm]
  have hcode : (sh.code == NOT_FOUND_SHIPMENT_CODE) = true := by
    simp [h400, NOT_FOUND_SHIPMENT_CODE]
  have hproc : processShipment st sh =
      { st with items := pre ++ { it with fc := suggestedPick e } :: post } := by
    simp only [processShipment, hcode, if_true, hsugg]
    rw [hsplit, updateCarrierFirst_append pre post it sh.number _ hpre hit]
  exact ⟨hsugg, hproc, by rw [hproc]⟩

/-- Witness for C6: a code-400 shipment suggesting UPS rewrites exactly the
matching item's carrier. -/
theorem carrier_suggestion_applied_witness :
    get_suggested_carrier
        { code := 400, number := "A", carrier := 0,
          extra := some [{ multi := [100001] }] } =
      some (suggestedPick { multi := [100001] }) ∧
    processShipment
        { items := [{ num := "A", fc := 0, sc := 0 }], final_shipments := [],
          session_guid := "", pending_retries := 0, cred_refreshes := 0,
          delays := 0 }
        { code := 400, number := "A", carrier := 0,
          extra := some [{ multi := [100001] }] } =
      { items := [] ++
            { num := "A", fc := suggestedPick { multi := [100001] }, sc := 0 } :: [],
        final_shipments := [], session_guid := "",
        pending_retries := 0, cred_refreshes := 0, delays := 0 } := by
  have h := carrier_suggestion_applied
    { items := [{ num := "A", fc := 0, sc := 0 }], final_shipments := [],
      session_guid := "", pending_retries := 0, cred_refreshes := 0, delays := 0 }
    { code := 400, number := "A", carrier := 0,
      extra := some [{ multi := [100001] }] }
    { multi := [100001] } [] [] { num := "A", fc := 0, sc := 0 }
    rfl rfl (by decide) rfl (by intro j hj; cases hj) rfl
  exact ⟨h.1, h.2.1⟩

/-! ### Claim C9: empty batch -/

/-- Counterexample to C9 as stated: with no cached credential,
`track_multiple` on an empty list evaluates `&tracking_numbers[0]` and
panics instead of returning `Ok` with no shipments. -/
theorem track_multiple_empty_uncached_panics :
    track_multiple false [] 0 [] = TrackOutcome.panicked := rfl

/-- C9 (amended): if the pending-item list is empty the loop terminates
successfully at once, consuming no response; in particular, with a cached
credential, `track_multiple` on an empty batch returns `Ok` with an empty
shipment list for every response script (no request is submitted).  With
no cached credential the empty batch panics instead
(`track_multiple_empty_uncached_panics`). -/
theorem empty_pending_terminates :
    (∀ (st : EngineState) (responses : List TrackingResponse),
      pendingItems st = [] → runRounds responses st = some st) ∧
    ∀ (carrier_code : Nat) (responses : List TrackingResponse),
      track_multiple true [] carrier_code responses =
        TrackOutcome.ok
          { guid := "", shipments := [], meta := { code := 200, message := "Ok" } } := by
  have h1 : ∀ (st : EngineState) (responses : List TrackingResponse),
      pendingItems st = [] → runRounds responses st = some st := by
    intro st responses h
    rw [runRounds.eq_def, h]
    rfl
  refine ⟨h1, ?_⟩
  intro carrier_code responses
  have h2 := h1
    { items := [], final_shipments := [], session_guid := "",
      pending_retries := 0, cred_refreshes := 0, delays := 0 } responses rfl
  simp only [track_multiple, Bool.not_true, Bool.false_and, Bool.false_eq_true,
    if_false, List.map_nil]
  rw [h2]
  rfl

/-- Witness for C9 (amended) at a concrete state and a nonempty script. -/
theorem empty_pending_terminates_witness :
    pendingItems
        { items := [], final_shipments := [], session_guid := "g",
          pending_retries := 7, cred_refreshes := 0, delays := 0 } = [] ∧
    runRounds [{ guid := "x", shipments := [], meta := { code := 0, message := "" } }]
        { items := [], final_shipments := [], session_guid := "g",
          pending_retries := 7, cred_refreshes := 0, delays := 0 } =
      some { items := [], final_shipments := [], session_guid := "g",
             pending_retries := 7, cred_refreshes := 0, delays := 0 } :=
  ⟨by decide, empty_pending_terminates.1
    { items := [], final_shipments := [], session_guid := "g",
      pending_retries := 7, cred_refreshes := 0, delays := 0 }
    [{ guid := "x", shipments := [], meta := { code := 0, message := "" } }]
    (by decide)⟩

/-! ### Placeholder-fill lemmas and claim C5 -/

theorem lookupKey_fillPlaceholders_of_some {items : List TrackingItem}
    {m : ShipMap} {k : String} {v : Shipment} (h : m.lookupKey k = some v) :
    (fillPlaceholders items m).lookupKey k = some v := by
  induction items generalizing m with
  | nil => exact h
  | cons it rest ih =>
    simp only [fillPlaceholders, List.foldl_cons]
    by_cases hk : m.hasKey it.num = true
    · rw [if_pos hk]
      exact ih h
    · rw [if_neg hk]
      apply ih
      have hne : k ≠ it.num := by
        intro he
        subst he
        exact hk (ShipMap.hasKey_iff_lookupKey.mpr (by simp [h]))
      rw [lookupKey_insert_ne m _ hne]
      exact h

theorem hasKey_fillPlaceholders_mono {items : List TrackingItem} {m : ShipMap}
    {k : String} (h : m.hasKey k = true) :
    (fillPlaceholders items m).hasKey k = true := by
  induction items generalizing m with
  | nil => exact h
  | cons it rest ih =>
    simp only [fillPlaceholders, List.foldl_cons]
    by_cases hk : m.hasKey it.num = true
    · rw [if_pos hk]
      exact ih h
    · rw [if_neg hk]
      exact ih (hasKey_insert_of_hasKey it.num _ h)

theorem hasKey_fillPlaceholders_of_mem {items : List TrackingItem}
    {m : ShipMap} {it : TrackingItem} (hmem : it ∈ items) :
    (fillPlaceholders items m).hasKey it.num = true := by
  induction items generalizing m with
  | nil => cases hmem
  | cons j rest ih =>
    simp only [fillPlaceholders, List.foldl_cons]
    rcases List.mem_cons.mp hmem with h | h
    · subst h
      by_cases hk : m.hasKey it.num = true
      · rw [if_pos hk]
        exact hasKey_fillPlaceholders_mono hk
      · rw [if_neg hk]
        apply hasKey_fillPlaceholders_mono
        simp [ShipMap.hasKey_iff_lookupKey, lookupKey_insert_self]
    · by_cases hk : m.hasKey j.num = true
      · rw [if_pos hk]
        exact ih h
      · rw [if_neg hk]
        exact ih h

theorem lookupKey_fillPlaceholders_pending {items : List TrackingItem}
    {m : ShipMap} {it : TrackingItem}
    (hnd : (items.map TrackingItem.num).Nodup) (hmem : it ∈ items)
    (hk : m.hasKey it.num = false) :
    (fillPlaceholders items m).lookupKey it.num =
      some (placeholderShipment it) := by
  induction items generalizing m with
  | nil => cases hmem
  | cons j rest ih =>
    simp only [List.map_cons, List.nodup_cons] at hnd
    simp only [fillPlaceholders, List.foldl_cons]
    rcases List.mem_cons.mp hmem with h | h
    · subst h
      rw [if_neg (by simp [hk])]
      exact lookupKey_fillPlaceholders_of_some (lookupKey_insert_self m it.num _)
    · have hne : it.num ≠ j.num := by
        intro he
        exact hnd.1 (he ▸ List.mem_map_of_mem TrackingItem.num h)
      by_cases hkj : m.hasKey j.num = true
      · rw [if_pos hkj]
        exact ih hnd.2 h hk
      · rw [if_neg hkj]
        apply ih hnd.2 h
        rw [hasKey_insert_ne _ hne]
        exact hk

theorem entriesOK_fillPlaceholders {items : List TrackingItem} {m : ShipMap}
    (hok : entriesOK m) : entriesOK (fillPlaceholders items m) := by
  induction items generalizing m with
  | nil => exact hok
  | cons it rest ih =>
    simp only [fillPlaceholders, List.foldl_cons]
    by_cases hk : m.hasKey it.num = true
    · rw [if_pos hk]
      exact ih hok
    · rw [if_neg hk]
      exact ih (entriesOK_insert hok rfl)

/-- C5: after a non-credential-error round leaves items pending, if the
retry budget of 50 is exhausted the loop fills every still-pending item
with a placeholder (pending code 100, the item's number and current
carrier, no detail) and terminates, keeping every already-resolved entry;
otherwise it increments the retry counter, sleeps once, and starts another
round. -/
theorem retry_budget_placeholders (st st2 : EngineState)
    (resp : TrackingResponse)
    (hcode : (resp.meta.code == INVALID_SIGN_CODE ||
      resp.meta.code == INVALID_SESSION_CODE) = false)
    (hst2 : st2 = resp.shipments.foldl processShipment
      (if resp.guid == "" then st else { st with session_guid := resp.guid }))
    (hpending : (pendingItems st2).length > 0) :
    (st2.pending_retries ≥ MAX_PENDING_RETRIES →
      processRound st resp = RoundOutcome.done
        { st2 with final_shipments :=
            fillPlaceholders st2.items st2.final_shipments } ∧
      ((st2.items.map TrackingItem.num).Nodup →
        ∀ item ∈ st2.items, st2.final_shipments.hasKey item.num = false →
          (fillPlaceholders st2.items st2.final_shipments).lookupKey item.num =
            some (placeholderShipment item)) ∧
      (∀ (k : String) (v : Shipment), st2.final_shipments.lookupKey k = some v →
        (fillPlaceholders st2.items st2.final_shipments).lookupKey k = some v)) ∧
    (st2.pending_retries < MAX_PENDING_RETRIES →
      processRound st resp = RoundOutcome.next
        { st2 with
            pending_retries := st2.pending_retries + 1
            delays := st2.delays + 1 }) := by
  have hunfold : processRound st resp =
      (if (pendingItems st2).length > 0 then
        if st2.pending_retries ≥ MAX_PENDING_RETRIES then
          RoundOutcome.done
            { st2 with final_shipments :=
                fillPlaceholders st2.items st2.final_shipments }
        else
          RoundOutcome.next
            { st2 with
                pending_retries := st2.pending_retries + 1
                delays := st2.delays + 1 }
      else RoundOutcome.next st2) := by
    simp only [processRound, hcode, Bool.false_eq_true, if_false]
    rw [← hst2]
  constructor
  · intro hge
    refine ⟨?_, ?_, ?_⟩
    · rw [hunfold, if_pos hpending, if_pos hge]
    · intro hnd item hmem hkey
      exact lookupKey_fillPlaceholders_pending hnd hmem hkey
    · intro k v hv
      exact lookupKey_fillPlaceholders_of_some hv
  · intro hlt
    rw [hunfold, if_pos hpending, if_neg (Nat.not_le.mpr hlt)]

/-- Witness for C5: with the budget exhausted and one item still pending,
the round terminates with the placeholder fill. -/
theorem retry_budget_placeholders_witness :
    processRound
        { items := [{ num := "A", fc := 0, sc := 0 }], final_shipments := [],
          session_guid := "", pending_retries := 50, cred_refreshes := 0,
          delays := 0 }
        { guid := "", shipments := [], meta := { code := 0, message := "" } } =
      RoundOutcome.done
        { items := [{ num := "A", fc := 0, sc := 0 }],
          final_shipments := fillPlaceholders
            [{ num := "A", fc := 0, sc := 0 }] [],
          session_guid := "", pending_retries := 50, cred_refreshes := 0,
          delays := 0 } :=
  ((retry_budget_placeholders
    { items := [{ num := "A", fc := 0, sc := 0 }], final_shipments := [],
      session_guid := "", pending_retries := 50, cred_refreshes := 0,
      delays := 0 }
    { items := [{ num := "A", fc := 0, sc := 0 }], final_shipments := [],
      session_guid := "", pending_retries := 50, cred_refreshes := 0,
      delays := 0 }
    { guid := "", shipments := [], meta := { code := 0, message := "" } }
    (by decide) (by decide) (by decide)).1 (by decide)).1


/-! ### Engine invariants: item numbers and map entries -/

theorem updateCarrierFirst_map_num (l : List TrackingItem) (num : String)
    (c : Nat) :
    (updateCarrierFirst l num c).map TrackingItem.num = l.map TrackingItem.num := by
  induction l with
  | nil => rfl
  | cons i rest ih =>
    by_cases h : (i.num == num) = true
    · simp [updateCarrierFirst, h]
    · simp only [updateCarrierFirst, h, Bool.false_eq_true, if_false,
        List.map_cons, ih]

theorem processShipment_items_num (st : EngineState) (s : Shipment) :
    (processShipment st s).items.map TrackingItem.num =
      st.items.map TrackingItem.num := by
  unfold processShipment
  split
  · simp [updateCarrierFirst_map_num]
  · split <;> rfl

theorem processShipment_entriesOK (st : EngineState) (s : Shipment)
    (hok : entriesOK st.final_shipments) :
    entriesOK (processShipment st s).final_shipments := by
  unfold processShipment
  split
  · exact hok
  · split
    · exact entriesOK_insert hok rfl
    · exact hok

theorem foldl_processShipment_items_num (ss : List Shipment) (st : EngineState) :
    (ss.foldl processShipment st).items.map TrackingItem.num =
      st.items.map TrackingItem.num := by
  induction ss generalizing st with
  | nil => rfl
  | cons s rest ih => rw [List.foldl_cons, ih, processShipment_items_num]

theorem foldl_processShipment_entriesOK (ss : List Shipment) (st : EngineState)
    (hok : entriesOK st.final_shipments) :
    entriesOK ((ss.foldl processShipment st).final_shipments) := by
  induction ss generalizing st with
  | nil => exact hok
  | cons s rest ih =>
    rw [List.foldl_cons]
    exact ih _ (processShipment_entriesOK st s hok)

theorem processRound_next_inv (st st1 : EngineState) (resp : TrackingResponse)
    (h : processRound st resp = RoundOutcome.next st1) :
    st1.items.map TrackingItem.num = st.items.map TrackingItem.num ∧
    (entriesOK st.final_shipments → entriesOK st1.final_shipments) := by
  simp only [processRound] at h
  by_cases hc : (resp.meta.code == INVALID_SIGN_CODE ||
      resp.meta.code == INVALID_SESSION_CODE) = true
  · rw [if_pos hc] at h
    have h1 := RoundOutcome.next.inj h
    subst h1
    exact ⟨rfl, fun hok => hok⟩
  · rw [if_neg hc] at h
    generalize hG : (if resp.guid == "" then st
      else { st with session_guid := resp.guid }) = stG at h
    have hGitems : stG.items = st.items := by
      rw [← hG]
      split <;> rfl
    have hGfinal : stG.final_shipments = st.final_shipments := by
      rw [← hG]
      split <;> rfl
    split at h
    · split at h
      · exact absurd h (by simp)
      · have h1 := RoundOutcome.next.inj h
        subst h1
        constructor
        · show (List.foldl processShipment stG resp.shipments).items.map _ = _
          rw [foldl_processShipment_items_num, hGitems]
        · intro hok
          show entriesOK (List.foldl processShipment stG resp.shipments).final_shipments
          exact foldl_processShipment_entriesOK _ _ (hGfinal ▸ hok)
    · have h1 := RoundOutcome.next.inj h
      subst h1
      constructor
      · rw [foldl_processShipment_items_num, hGitems]
      · intro hok
        exact foldl_processShipment_entriesOK _ _ (hGfinal ▸ hok)

theorem processRound_done_inv (st stF : EngineState) (resp : TrackingResponse)
    (h : processRound st resp = RoundOutcome.done stF) :
    stF.items.map TrackingItem.num = st.items.map TrackingItem.num ∧
    (entriesOK st.final_shipments → entriesOK stF.final_shipments) ∧
    ∀ i ∈ stF.items, stF.final_shipments.hasKey i.num = true := by
  simp only [processRound] at h
  by_cases hc : (resp.meta.code == INVALID_SIGN_CODE ||
      resp.meta.code == INVALID_SESSION_CODE) = true
  · rw [if_pos hc] at h
    exact absurd h (by simp)
  · rw [if_neg hc] at h
    generalize hG : (if resp.guid == "" then st
      else { st with session_guid := resp.guid }) = stG at h
    have hGitems : stG.items = st.items := by
      rw [← hG]
      split <;> rfl
    have hGfinal : stG.final_shipments = st.final_shipments := by
      rw [← hG]
      split <;> rfl
    split at h
    · split at h
      · have h1 := RoundOutcome.done.inj h
        subst h1
        refine ⟨?_, ?_, ?_⟩
        · show (List.foldl processShipment stG resp.shipments).items.map _ = _
          rw [foldl_processShipment_items_num, hGitems]
        · intro hok
          exact entriesOK_fillPlaceholders
            (foldl_processShipment_entriesOK _ _ (hGfinal ▸ hok))
        · intro i hi
          exact hasKey_fillPlaceholders_of_mem hi
      · exact absurd h (by simp)
    · exact absurd h (by simp)

theorem pendingItems_empty_hasKey {st : EngineState}
    (h : (pendingItems st).isEmpty = true) :
    ∀ i ∈ st.items, st.final_shipments.hasKey i.num = true := by
  intro i hi
  rw [List.isEmpty_iff] at h
  have h2 := List.filter_eq_nil_iff.mp h i hi
  simpa using h2

theorem runRounds_post (responses : List TrackingResponse)
    (st stF : EngineState) (h : runRounds responses st = some stF) :
    stF.items.map TrackingItem.num = st.items.map TrackingItem.num ∧
    (entriesOK st.final_shipments → entriesOK stF.final_shipments) ∧
    ∀ i ∈ stF.items, stF.final_shipments.hasKey i.num = true := by
  induction responses generalizing st with
  | nil =>
    rw [runRounds.eq_def] at h
    by_cases hp : (pendingItems st).isEmpty = true
    · rw [if_pos hp] at h
      have h1 := Option.some.inj h
      subst h1
      exact ⟨rfl, fun hok => hok, pendingItems_empty_hasKey hp⟩
    · rw [if_neg hp] at h
      exact absurd h (by simp)
  | cons resp rest ih =>
    rw [runRounds] at h
    by_cases hp : (pendingItems st).isEmpty = true
    · rw [if_pos hp] at h
      have h1 := Option.some.inj h
      subst h1
      exact ⟨rfl, fun hok => hok, pendingItems_empty_hasKey hp⟩
    · rw [if_neg hp] at h
      cases hpr : processRound st resp with
      | done stD =>
        rw [hpr] at h
        have h1 := Option.some.inj (h : some stD = some stF)
        subst h1
        exact processRound_done_inv st stD resp hpr
      | next st1 =>
        rw [hpr] at h
        have h2 : runRounds rest st1 = some stF := h
        obtain ⟨h1, h3⟩ := processRound_next_inv st st1 resp hpr
        obtain ⟨g1, g2, g3⟩ := ih st1 h2
        exact ⟨g1.trans h1, fun hok => g2 (h3 hok), g3⟩

/-- Common shape of a successful `track_multiple` call: the returned
shipments are the assembly of the requested numbers from a final result map
whose entries carry their own key and which covers every requested
number. -/
theorem track_multiple_ok_shape (hasCreds : Bool) (nums : List String)
    (cc : Nat) (responses : List TrackingResponse) (resp : TrackingResponse)
    (h : track_multiple hasCreds nums cc responses = TrackOutcome.ok resp) :
    ∃ m : ShipMap, resp.shipments = assembleOutput nums m ∧ entriesOK m ∧
      ∀ n ∈ nums, m.hasKey n = true := by
  simp only [track_multiple] at h
  by_cases hempty : (!hasCreds && nums.isEmpty) = true
  · rw [if_pos hempty] at h
    exact absurd h (by simp)
  · rw [if_neg hempty] at h
    cases hrun : runRounds responses
        { items := nums.map fun num => { num, fc := cc, sc := 0 }
          final_shipments := []
          session_guid := ""
          pending_retries := 0
          cred_refreshes := 0
          delays := 0 } with
    | none =>
      rw [hrun] at h
      exact absurd h (by simp)
    | some stF =>
      rw [hrun] at h
      have h1 := TrackOutcome.ok.inj h
      obtain ⟨g1, g2, g3⟩ := runRounds_post _ _ _ hrun
      refine ⟨stF.final_shipments, ?_, ?_, ?_⟩
      · rw [← h1]
      · exact g2 fun p hp => absurd hp (List.not_mem_nil p)
      · intro n hn
        have hnums : stF.items.map TrackingItem.num = nums := by
          rw [g1]
          show List.map TrackingItem.num
            (List.map (fun num => { num := num, fc := cc, sc := 0 }) nums) = nums
          rw [List.map_map]
          have hcomp : (TrackingItem.num ∘ fun num =>
              ({ num := num, fc := cc, sc := 0 } : TrackingItem)) = id := rfl
          rw [hcomp, List.map_id]
        rw [← hnums] at hn
        obtain ⟨i, hi, hin⟩ := List.mem_map.mp hn
        exact hin ▸ g3 i hi


/-! ### Output-assembly lemmas, claims C7 and C10 -/

theorem assembleOutput_map_number {nums : List String} {m : ShipMap}
    (hnd : nums.Nodup) (hok : entriesOK m)
    (hcov : ∀ n ∈ nums, m.hasKey n = true) :
    (assembleOutput nums m).map Shipment.number = nums := by
  induction nums generalizing m with
  | nil => rfl
  | cons n rest ih =>
    simp only [List.nodup_cons] at hnd
    have hkn : m.hasKey n = true := hcov n (List.mem_cons_self n rest)
    obtain ⟨v, hv⟩ : ∃ v, m.lookupKey n = some v := by
      rw [ShipMap.hasKey_iff_lookupKey] at hkn
      exact Option.isSome_iff_exists.mp hkn
    simp only [assembleOutput, ShipMap.removeKV, hv, List.map_cons]
    rw [lookupKey_number hok hv]
    congr 1
    apply ih hnd.2 (entriesOK_eraseKey n hok)
    intro x hx
    have hxn : x ≠ n := fun he => hnd.1 (he ▸ hx)
    rw [hasKey_eraseKey_ne m hxn]
    exact hcov x (List.mem_cons_of_mem n hx)

/-- C7: whatever responses arrive and in whatever order their shipments
appear, a successful `track_multiple` on distinct tracking numbers returns
the shipments in exactly the caller's input order (one per requested
number, assembled by map lookup). -/
theorem output_preserves_input_order (hasCreds : Bool) (nums : List String)
    (carrier_code : Nat) (responses : List TrackingResponse)
    (resp : TrackingResponse) (hnd : nums.Nodup)
    (h : track_multiple hasCreds nums carrier_code responses =
      TrackOutcome.ok resp) :
    resp.shipments.map Shipment.number = nums := by
  obtain ⟨m, hs, hok, hcov⟩ :=
    track_multiple_ok_shape hasCreds nums carrier_code responses resp h
  rw [hs]
  exact assembleOutput_map_number hnd hok hcov

/-- A resolved (code 200, with latest event) shipment for witnesses. -/
def shipOk (n : String) : Shipment :=
  { code := 200, number := n, carrier := 0,
    shipment := some { tracking := none, latest_event := some {} } }

/-- A plain successful response carrying the given shipments. -/
def respWith (ss : List Shipment) : TrackingResponse :=
  { guid := "", shipments := ss, meta := { code := 0, message := "" } }

/-- Witness for C7 on a two-element batch resolved out of order. -/
theorem output_preserves_input_order_witness :
    (["A", "B"] : List String).Nodup ∧
    ∃ resp, track_multiple true ["A", "B"] 0
        [respWith [shipOk "B", shipOk "A"]] = TrackOutcome.ok resp ∧
      resp.shipments.map Shipment.number = ["A", "B"] := by
  refine ⟨by decide, ?_⟩
  obtain ⟨resp, hresp⟩ : ∃ resp, track_multiple true ["A", "B"] 0
      [respWith [shipOk "B", shipOk "A"]] = TrackOutcome.ok resp := ⟨_, rfl⟩
  exact ⟨resp, hresp,
    output_preserves_input_order true ["A", "B"] 0 _ resp (by decide) hresp⟩

theorem assembleOutput_number_notMem {nums : List String} {m : ShipMap}
    {n : String} (hok : entriesOK m) (hn : m.hasKey n = false) :
    ∀ s ∈ assembleOutput nums m, s.number ≠ n := by
  induction nums generalizing m with
  | nil => intro s hs; cases hs
  | cons x rest ih =>
    intro s hs
    have hxer : (ShipMap.eraseKey x m).hasKey n = false := by
      by_cases hx : n = x
      · subst hx
        exact hasKey_eraseKey_self m n
      · rw [hasKey_eraseKey_ne m hx]
        exact hn
    cases hx : m.lookupKey x with
    | none =>
      simp only [assembleOutput, ShipMap.removeKV, hx] at hs
      exact ih (entriesOK_eraseKey x hok) hxer s hs
    | some v =>
      simp only [assembleOutput, ShipMap.removeKV, hx, List.mem_cons] at hs
      rcases hs with hs | hs
      · rw [hs, lookupKey_number hok hx]
        intro he
        have hk : m.hasKey x = true :=
          ShipMap.hasKey_iff_lookupKey.mpr (by rw [hx]; rfl)
        rw [he, hn] at hk
        exact Bool.noConfusion hk
      · exact ih (entriesOK_eraseKey x hok) hxer s hs

theorem assembleOutput_numbers_nodup {nums : List String} {m : ShipMap}
    (hok : entriesOK m) :
    ((assembleOutput nums m).map Shipment.number).Nodup := by
  induction nums generalizing m with
  | nil => exact List.nodup_nil
  | cons x rest ih =>
    cases hx : m.lookupKey x with
    | none =>
      simp only [assembleOutput, ShipMap.removeKV, hx]
      exact ih (entriesOK_eraseKey x hok)
    | some v =>
      simp only [assembleOutput, ShipMap.removeKV, hx, List.map_cons]
      rw [List.nodup_cons]
      refine ⟨?_, ih (entriesOK_eraseKey x hok)⟩
      intro hmem
      obtain ⟨s, hs, hsn⟩ := List.mem_map.mp hmem
      have hne := assembleOutput_number_notMem (entriesOK_eraseKey x hok)
        (hasKey_eraseKey_self m x) s hs
      rw [lookupKey_number hok hx] at hsn
      exact hne hsn

theorem assembleOutput_numbers_subset {nums : List String} {m : ShipMap}
    (hok : entriesOK m) :
    ∀ y ∈ (assembleOutput nums m).map Shipment.number, y ∈ nums := by
  induction nums generalizing m with
  | nil => intro y hy; cases hy
  | cons x rest ih =>
    intro y hy
    cases hx : m.lookupKey x with
    | none =>
      simp only [assembleOutput, ShipMap.removeKV, hx] at hy
      exact List.mem_cons_of_mem x (ih (entriesOK_eraseKey x hok) y hy)
    | some v =>
      simp only [assembleOutput, ShipMap.removeKV, hx, List.map_cons,
        List.mem_cons] at hy
      rcases hy with hy | hy
      · rw [hy, lookupKey_number hok hx]
        exact List.mem_cons_self x rest
      · exact List.mem_cons_of_mem x (ih (entriesOK_eraseKey x hok) y hy)

/-- C10: when the input batch repeats a tracking number, each number occurs
at most once among the returned shipments (the result map holds one entry
per number and output assembly removes an entry when it is taken), so the
output list is strictly shorter than the input list. -/
theorem duplicate_input_shrinks_output (hasCreds : Bool) (nums : List String)
    (carrier_code : Nat) (responses : List TrackingResponse)
    (resp : TrackingResponse) (hdup : ¬nums.Nodup)
    (h : track_multiple hasCreds nums carrier_code responses =
      TrackOutcome.ok resp) :
    (∀ n : String, (resp.shipments.map Shipment.number).count n ≤ 1) ∧
    resp.shipments.length < nums.length := by
  obtain ⟨m, hs, hok, hcov⟩ :=
    track_multiple_ok_shape hasCreds nums carrier_code responses resp h
  have hnodup : ((assembleOutput nums m).map Shipment.number).Nodup :=
    assembleOutput_numbers_nodup hok
  have hsub : ∀ y ∈ (assembleOutput nums m).map Shipment.number, y ∈ nums :=
    assembleOutput_numbers_subset hok
  constructor
  · intro n
    rw [hs]
    exact List.nodup_iff_count_le_one.mp hnodup n
  · rw [hs]
    have hlen1 : (assembleOutput nums m).length =
        ((assembleOutput nums m).map Shipment.number).length :=
      (List.length_map _ _).symm
    have hle : ((assembleOutput nums m).map Shipment.number).length ≤
        nums.dedup.length := by
      have h1 : ((assembleOutput nums m).map Shipment.number).toFinset.card =
          ((assembleOutput nums m).map Shipment.number).length :=
        List.toFinset_card_of_nodup hnodup
      have h2 : ((assembleOutput nums m).map Shipment.number).toFinset ⊆
          nums.toFinset := by
        intro y hy
        rw [List.mem_toFinset] at *
        exact hsub y (by simpa using hy)
      have h3 := Finset.card_le_card h2
      rw [h1] at h3
      rw [List.card_toFinset nums] at h3
      exact h3
    have hlt : nums.dedup.length < nums.length := by
      have hsl : nums.dedup.Sublist nums := List.dedup_sublist nums
      rcases Nat.lt_or_ge nums.dedup.length nums.length with hlt | hge
      · exact hlt
      · exfalso
        have heq : nums.dedup = nums :=
          hsl.eq_of_length (Nat.le_antisymm hsl.length_le hge)
        exact hdup (heq ▸ List.nodup_dedup nums)
    omega

/-- Witness for C10 on a duplicated input number. -/
theorem duplicate_input_shrinks_output_witness :
    ¬(["A", "A"] : List String).Nodup ∧
    ∃ resp, track_multiple true ["A", "A"] 0
        [respWith [shipOk "A"]] = TrackOutcome.ok resp ∧
      resp.shipments.length < 2 := by
  refine ⟨by decide, ?_⟩
  obtain ⟨resp, hresp⟩ : ∃ resp, track_multiple true ["A", "A"] 0
      [respWith [shipOk "A"]] = TrackOutcome.ok resp := ⟨_, rfl⟩
  have h2 := (duplicate_input_shrinks_output true ["A", "A"] 0 _ resp
    (by decide) hresp).2
  exact ⟨resp, hresp, h2⟩


/-! ### Credential cache refresh (`src/credential_cache.rs`)

`refresh_credentials` is modelled as a transition system over two tasks
sharing one cache.  Every `write()`-guard critical section in the source
contains no `await` point (the guard is dropped before the asset fetch and
before the V8 `spawn_blocking`), so each critical section is one atomic
transition and the lock itself never stays held across a step; the await
points — lock acquisition, the asset fetch, the sandbox run — are the
interleaving points.  Asset freshness (`is_fresh`, the 1-hour TTL) is
modelled as presence: assets fetched during the run are fresh. -/

/-- Program counter of one task inside `refresh_credentials`. -/
inductive TaskPC where
  /-- About to enter step 1: acquire the write guard and double-check. -/
  | start
  /-- Dropped the guard; `fetch_js_assets` is in flight (`src/credential_cache.rs:148`). -/
  | fetching
  /-- Fetch finished; re-acquire the guard and store the assets (`:151`). -/
  | storeAssets
  /-- Has assets; the V8 `spawn_blocking` sandbox run is in flight (`:172`). -/
  | signing
  /-- Sign ready; acquire the guard and store the credentials (`:206`). -/
  | storeCreds
  /-- Returned. -/
  | finished
deriving DecidableEq

/-- The shared cache plus both tasks' control state and effect counters. -/
structure CacheSys where
  /-- `inner.credentials.is_some()`. -/
  credentials : Bool
  /-- `inner.cached_assets.is_some()` (and fresh). -/
  cached_assets : Bool
  pcA : TaskPC
  pcB : TaskPC
  /-- Completed `fetch_js_assets` calls. -/
  fetches : Nat
  /-- Completed V8 sandbox sign generations. -/
  signs : Nat
deriving DecidableEq

def CacheSys.pcOf (s : CacheSys) (who : Bool) : TaskPC :=
  if who then s.pcA else s.pcB

def CacheSys.withPC (s : CacheSys) (who : Bool) (pc : TaskPC) : CacheSys :=
  if who then { s with pcA := pc } else { s with pcB := pc }

/-- One step of task `who` inside `refresh_credentials`; `none` when the
task is already finished. -/
def taskStep (s : CacheSys) (who : Bool) : Option CacheSys :=
  match s.pcOf who with
  | TaskPC.start =>
      if s.credentials && s.cached_assets then
        some (s.withPC who TaskPC.finished)
      else if s.cached_assets then
        some (s.withPC who TaskPC.signing)
      else
        some (s.withPC who TaskPC.fetching)
  | TaskPC.fetching =>
      some { s.withPC who TaskPC.storeAssets with fetches := s.fetches + 1 }
  | TaskPC.storeAssets =>
      some { s.withPC who TaskPC.signing with cached_assets := true }
  | TaskPC.signing =>
      some { s.withPC who TaskPC.storeCreds with signs := s.signs + 1 }
  | TaskPC.storeCreds =>
      some { s.withPC who TaskPC.finished with credentials := true }
  | TaskPC.finished => none

/-- Run a schedule (the sequence of task choices); a choice for a finished
task is a no-op. -/
def runSched : List Bool → CacheSys → CacheSys
  | [], s => s
  | who :: rest, s =>
      match taskStep s who with
      | some s1 => runSched rest s1
      | none => runSched rest s

/-- Two tasks entering `refresh_credentials` on an empty cache. -/
def cacheInit : CacheSys :=
  { credentials := false, cached_assets := false, pcA := TaskPC.start,
    pcB := TaskPC.start, fetches := 0, signs := 0 }

/-- C8 is refuted: under the alternating schedule A,B,A,B,... both tasks
pass the double-check before either stores assets (the write guard is
released around the network fetch), so two concurrent `refresh_credentials`
calls on an empty cache perform TWO asset fetches and TWO sandbox
executions, not one — contradicting both the claim and the code's own
comment that "only the first one regenerates". -/
theorem refresh_not_single_flight :
    (runSched [true, false, true, false, true, false, true, false, true, false]
        cacheInit).pcA = TaskPC.finished ∧
    (runSched [true, false, true, false, true, false, true, false, true, false]
        cacheInit).pcB = TaskPC.finished ∧
    (runSched [true, false, true, false, true, false, true, false, true, false]
        cacheInit).fetches = 2 ∧
    (runSched [true, false, true, false, true, false, true, false, true, false]
        cacheInit).signs = 2 := by
  decide


/-! ### Embedding validation against the source's own test vectors
(`src/last_event_id.rs`, `mod tests`). -/

/-- `test_djb2_known_value`: `djb2("test") = 2087933171`. -/
theorem djb2_test_vector : djb2 "test".toList = 2087933171 := by decide

/-- `test_djb2_empty` and `test_murmur_empty`. -/
theorem hash_empty_vectors : djb2 [] = 0 ∧ murmur_hash [] 0 = 0 := by decide

/-- `test_known_hashes`: the murmur hash of the HAR metadata string is
`0x20b04e11`. -/
theorem murmur_test_vector :
    pad8_hex (murmur_hash
      "G-EA6CFDB403493F2A:false:1022200205:0:0/19bf6ded9f6/11/true/300/1022200205/1.0.156/0".toList
      0) = "20b04e11".toList := by decide

/-- `test_pad8_hex`. -/
theorem pad8_hex_vectors :
    pad8_hex 0 = "00000000".toList ∧ pad8_hex 255 = "000000ff".toList ∧
    pad8_hex 0x20b04e11 = "20b04e11".toList := by decide

/-- `test_hex_encode_chars`. -/
theorem hex_encode_chars_vectors :
    hex_encode_chars "AB".toList = "4142".toList ∧
    hex_encode_chars "0".toList = "30".toList := by decide


end Track17
